import Mathlib

/-!
Verification development for the prepAIred scoring backend.

The definitions below are a shallow embedding of the Python sources:
* `app/services/score_service.py` (`ScoreService.calculate_score`),
* `app/services/analytics_service.py` (`process_test_attempt`,
  `_update_chapter_stats`, `_update_github_history`).

Python `dict`s (which preserve insertion order, replace in place on
re-assignment, and append new keys at the end) are modelled as association
lists `List (String × β)` together with the operations `dictFind`,
`dictInsert` and `dictUpdate` below.  JSON numbers are modelled as `ℚ`
(counters as `ℕ` or `ℤ`), JSON nulls as `Option`.
-/

/-- Python `str.strip()`: drop leading and trailing whitespace. -/
def pyStrip (s : String) : String :=
  String.mk (((s.data.dropWhile Char.isWhitespace).reverse.dropWhile Char.isWhitespace).reverse)

/-- `d.get(k)` on a Python dict: first binding of `k`, if any. -/
def dictFind (k : String) : List (String × β) → Option β
  | [] => none
  | (k2, v) :: rest => if k = k2 then some v else dictFind k rest

/-- `d[k] = v` on a Python dict: replace in place, else append at the end. -/
def dictInsert (k : String) (v : β) : List (String × β) → List (String × β)
  | [] => [(k, v)]
  | (k2, v2) :: rest => if k = k2 then (k2, v) :: rest else (k2, v2) :: dictInsert k v rest

/-- In-place mutation `f` of the value bound to `k` (first binding). -/
def dictUpdate (k : String) (f : β → β) : List (String × β) → List (String × β)
  | [] => []
  | (k2, v) :: rest => if k = k2 then (k2, f v) :: rest else (k2, v) :: dictUpdate k f rest

/-- `list(d.keys())`. -/
def dictKeys (l : List (String × β)) : List String := l.map (fun p => p.1)

/-! ## Scoring engine (`ScoreService.calculate_score`) -/

/-- One element of the test definition's `sections` list.  The three mark
fields are read with `.get(..., 0)` in the source, so absent (or JSON null)
keys are `none` here. -/
structure Section where
  name : String
  marksPerQuestion : Option ℚ
  negagiveMarksPerQuestion : Option ℚ
  negativeMarksPerQuestion : Option ℚ
deriving DecidableEq

/-- The per-section marking scheme stored in `sections_config`. -/
structure MarkScheme where
  positive : ℚ
  negative : ℚ
deriving DecidableEq

/-- Lines 51–53 of `score_service.py`: the misspelled key
`negagiveMarksPerQuestion` is read first (default 0); if that value is falsy
(absent, null or 0) the correctly spelled key is consulted. -/
def sectionNegativeMarks (s : Section) : ℚ :=
  let negative_marks := s.negagiveMarksPerQuestion.getD 0
  if negative_marks = 0 then s.negativeMarksPerQuestion.getD 0
  else negative_marks

/-- Lines 46–58: build `sections_config` keyed by section name. -/
def sectionsConfig (sections : List Section) : List (String × MarkScheme) :=
  sections.foldl
    (fun cfg s =>
      dictInsert s.name
        { positive := s.marksPerQuestion.getD 0, negative := sectionNegativeMarks s } cfg)
    []

/-- One element of the test definition's `questions` list. -/
structure Question where
  uuid : String
  id : Option String
  sectionName : String
  correctAnswer : String
  chapterCode : Option String
  tag2 : Option String
deriving DecidableEq

/-- Lines 115–118: chapter key resolution.  `chapterCode` is used when
truthy (present and a non-empty string), else `tags.get('tag2', 'Unknown')`. -/
def chapterTagOf (q : Question) : String :=
  let c := q.chapterCode.getD ""
  if c = "" then q.tag2.getD "Unknown" else c

/-- A response set: a JSON object mapping question uuid to a submitted
answer, whose value may be JSON null (`none`). -/
abbrev ResponseSet := List (String × Option String)

/-- `response_data.get(uuid)`: `None` when the key is absent or its value is
null. -/
def responseGet (response_data : ResponseSet) (uuid : String) : Option String :=
  (dictFind uuid response_data).join

/-- Per-question outcome status. -/
inductive Status where
  | Correct
  | Incorrect
  | Unattempted
deriving DecidableEq

/-- The shared shape of `section_scores[...]` and `chapter_scores[...]`
aggregate buckets. -/
structure ScoreAgg where
  score : ℚ
  correct : ℕ
  incorrect : ℕ
  unattempted : ℕ
  total_questions : ℕ
deriving DecidableEq

def zeroAgg : ScoreAgg :=
  { score := 0, correct := 0, incorrect := 0, unattempted := 0, total_questions := 0 }

/-- Lines 143–154: grade one question.  `user_ans` is the (null-flattened)
looked-up response; both sides are string-normalized and stripped before
comparison. -/
def questionOutcome (section_cfg : MarkScheme) (user_ans : Option String)
    (correct_ans : String) : Status × ℚ :=
  match user_ans with
  | some ans =>
      if pyStrip ans = pyStrip correct_ans then (Status.Correct, section_cfg.positive)
      else (Status.Incorrect, section_cfg.negative)
  | none => (Status.Unattempted, 0)

/-- Lines 156–164 / 166–173: the `if/elif/else` bumping one of the three
outcome counters. -/
def bumpCounts (status : Status) (a : ScoreAgg) : ScoreAgg :=
  match status with
  | Status.Correct => { a with correct := a.correct + 1 }
  | Status.Incorrect => { a with incorrect := a.incorrect + 1 }
  | Status.Unattempted => { a with unattempted := a.unattempted + 1 }

/-- One record of `attempt_comparison` (lines 184–193). -/
structure AttemptEntry where
  question_uuid : String
  question_id : Option String
  sectionName : String
  chapter_tag : String
  user_response : Option String
  correct_response : String
  status : Status
  marks_awarded : ℚ
deriving DecidableEq

/-- The accumulated scoring state; its final value is the computed part of
the `ScoreResult` (the metadata-bucket statistics and the passthrough of the
test-definition fields are independent of the properties below and are not
modelled). -/
structure ScoreResult where
  attempt_comparison : List AttemptEntry
  section_scores : List (String × ScoreAgg)
  chapter_scores : List (String × ScoreAgg)
  total_score : ℚ
  total_correct : ℕ
  total_incorrect : ℕ
  total_unattempted : ℕ
  total_questions_count : ℕ
deriving DecidableEq

/-- The comparison record appended for one question; it depends only on the
marking scheme, the responses and the question itself. -/
def comparisonEntry (cfg : List (String × MarkScheme)) (response_data : ResponseSet)
    (q : Question) : AttemptEntry :=
  let user_ans := responseGet response_data q.uuid
  let section_cfg := (dictFind q.sectionName cfg).getD { positive := 0, negative := 0 }
  let sm := questionOutcome section_cfg user_ans q.correctAnswer
  { question_uuid := q.uuid
    question_id := q.id
    sectionName := q.sectionName
    chapter_tag := chapterTagOf q
    user_response := user_ans
    correct_response := q.correctAnswer
    status := sm.1
    marks_awarded := sm.2 }

/-- Lines 108–193: the body of the `for q in questions` loop. -/
def processQuestion (cfg : List (String × MarkScheme)) (response_data : ResponseSet)
    (st : ScoreResult) (q : Question) : ScoreResult :=
  let chapter_tag := chapterTagOf q
  let user_ans := responseGet response_data q.uuid
  let section_cfg := (dictFind q.sectionName cfg).getD { positive := 0, negative := 0 }
  let chapter_scores :=
    if (dictFind chapter_tag st.chapter_scores).isSome then st.chapter_scores
    else st.chapter_scores ++ [(chapter_tag, zeroAgg)]
  let section_scores :=
    if (dictFind q.sectionName st.section_scores).isSome then
      dictUpdate q.sectionName
        (fun a => { a with total_questions := a.total_questions + 1 }) st.section_scores
    else st.section_scores
  let chapter_scores :=
    dictUpdate chapter_tag
      (fun a => { a with total_questions := a.total_questions + 1 }) chapter_scores
  let sm := questionOutcome section_cfg user_ans q.correctAnswer
  let status := sm.1
  let marks := sm.2
  let section_scores :=
    if (dictFind q.sectionName section_scores).isSome then
      dictUpdate q.sectionName
        (fun a => bumpCounts status { a with score := a.score + marks }) section_scores
    else section_scores
  let chapter_scores :=
    dictUpdate chapter_tag
      (fun a => bumpCounts status { a with score := a.score + marks }) chapter_scores
  { attempt_comparison := st.attempt_comparison ++ [comparisonEntry cfg response_data q]
    section_scores := section_scores
    chapter_scores := chapter_scores
    total_score := st.total_score + marks
    total_correct := if status = Status.Correct then st.total_correct + 1 else st.total_correct
    total_incorrect :=
      if status = Status.Incorrect then st.total_incorrect + 1 else st.total_incorrect
    total_unattempted :=
      if status = Status.Unattempted then st.total_unattempted + 1 else st.total_unattempted
    total_questions_count := st.total_questions_count + 1 }

/-- The test definition blob: its ordered `sections` and `questions` lists. -/
structure TestDefinition where
  sections : List Section
  questions : List Question
deriving DecidableEq

/-- `ScoreService.calculate_score`: initialize the per-section aggregate
buckets from `sections_config` (lines 89–97) and fold the question loop. -/
def calculateScore (ppt : TestDefinition) (response_data : ResponseSet) : ScoreResult :=
  let cfg := sectionsConfig ppt.sections
  let init : ScoreResult :=
    { attempt_comparison := []
      section_scores := cfg.map (fun p => (p.1, zeroAgg))
      chapter_scores := []
      total_score := 0
      total_correct := 0
      total_incorrect := 0
      total_unattempted := 0
      total_questions_count := 0 }
  ppt.questions.foldl (processQuestion cfg response_data) init

/-! ## Percentile estimator (`AnalyticsService.process_test_attempt`, lines 100–113) -/

/-- `P(M) = 100 * (1 - ((M99 - M)/M99)^k)` with `k = 1.87`, the student score
capped at `m99` via `min`; `percentile` stays `0.0` unless `m99 > 0`. -/
noncomputable def estimatePercentile (totalScore m99 : ℝ) : ℝ :=
  if 0 < m99 then
    let effective_score := min totalScore m99
    let term := (m99 - effective_score) / m99
    100 * (1 - term ^ (1.87 : ℝ))
  else 0

/-! ## Subject-wise positional grouping (lines 74–89) -/

/-- `section_scores.get(section_name, \x7b\x7d).get("score", 0)`. -/
def sectionScoreOf (section_scores : List (String × ScoreAgg)) (name : String) : ℚ :=
  ((dictFind name section_scores).map (fun a => a.score)).getD 0

/-- The `for i, section_name in enumerate(ordered_section_names)` loop:
indices 0–1 feed `phy_score`, 2–3 `chem_score`, 4–5 `math_score`, the rest
are ignored. -/
def subjectLoop (section_scores : List (String × ScoreAgg)) :
    List String → ℕ → ℚ → ℚ → ℚ → ℚ × ℚ × ℚ
  | [], _, phy, chem, math => (phy, chem, math)
  | name :: rest, i, phy, chem, math =>
    let score := sectionScoreOf section_scores name
    if i < 2 then subjectLoop section_scores rest (i + 1) (phy + score) chem math
    else if i < 4 then subjectLoop section_scores rest (i + 1) phy (chem + score) math
    else if i < 6 then subjectLoop section_scores rest (i + 1) phy chem (math + score)
    else subjectLoop section_scores rest (i + 1) phy chem math

/-- `(phy_score, chem_score, math_score)` for one score document. -/
def subjectScores (ordered_section_names : List String)
    (section_scores : List (String × ScoreAgg)) : ℚ × ℚ × ℚ :=
  subjectLoop section_scores ordered_section_names 0 0 0 0

/-! ## Chapter-stats merge (`AnalyticsService._update_chapter_stats`, lines 261–293) -/

/-- A cumulative per-chapter record of the stored chapter-stats document.
The stored document is arbitrary JSON, so the counters are modelled as `ℤ`. -/
structure ChapterAgg where
  attempted : ℤ
  unattempted : ℤ
  correct : ℤ
  incorrect : ℤ
  total_questions : ℤ
deriving DecidableEq

def zeroChapterAgg : ChapterAgg :=
  { attempted := 0, unattempted := 0, correct := 0, incorrect := 0, total_questions := 0 }

/-- The four fields read (each with `.get(..., 0)`) from one incoming
`chapter_scores` value. -/
structure ChapterDelta where
  correct : ℤ
  incorrect : ℤ
  unattempted : ℤ
  total_questions : ℤ
deriving DecidableEq

/-- Lines 278–287: fold one delta into an existing chapter record.  Note
`attempted` is incremented by the delta's `correct + incorrect`, it is not
recomputed from the merged totals. -/
def applyDelta (scores : ChapterDelta) (entry : ChapterAgg) : ChapterAgg :=
  { entry with
    correct := entry.correct + scores.correct
    incorrect := entry.incorrect + scores.incorrect
    unattempted := entry.unattempted + scores.unattempted
    total_questions := entry.total_questions + scores.total_questions
    attempted := entry.attempted + (scores.correct + scores.incorrect) }

/-- Lines 266–287: the body of the `for chapter_code, scores in
new_chapter_scores.items()` loop (zero-initialize an unseen code, then
mutate it in place). -/
def chapterStep (chapters : List (String × ChapterAgg)) (cd : String × ChapterDelta) :
    List (String × ChapterAgg) :=
  let chapters :=
    if (dictFind cd.1 chapters).isSome then chapters
    else chapters ++ [(cd.1, zeroChapterAgg)]
  dictUpdate cd.1 (applyDelta cd.2) chapters

/-- The sort key of line 290: ascending `attempted` count. -/
def byAttempted (a b : String × ChapterAgg) : Prop :=
  a.2.attempted ≤ b.2.attempted

instance : DecidableRel byAttempted :=
  fun a b => inferInstanceAs (Decidable (a.2.attempted ≤ b.2.attempted))

instance : IsTotal (String × ChapterAgg) byAttempted :=
  ⟨fun a b => le_total a.2.attempted b.2.attempted⟩

instance : IsTrans (String × ChapterAgg) byAttempted :=
  ⟨fun _ _ _ hab hbc => le_trans hab hbc⟩

/-- Lines 261–292: merge all deltas into the existing `chapters` mapping and
re-sort ascending by `attempted` (the `last_updated` timestamp and the
store round-trip are outside the model). -/
def mergeChapterStats (chapters : List (String × ChapterAgg))
    (deltas : List (String × ChapterDelta)) : List (String × ChapterAgg) :=
  List.insertionSort byAttempted (deltas.foldl chapterStep chapters)

/-! ## History merge (`AnalyticsService._update_github_history`, lines 325–346) -/

/-- A decoded JSON value, as produced by `json.loads`. -/
inductive Json where
  | arr : List Json → Json
  | obj : List (String × Json) → Json
  | str : String → Json
  | num : ℚ → Json
  | bool : Bool → Json
  | null : Json

/-- `isinstance(x, list)`. -/
def Json.isArr : Json → Bool
  | Json.arr _ => true
  | _ => false

/-- Lines 327–346 (pure part): `content` is the decoded existing document
(`none` when the file is absent, empty, or the fetch/decode raised).  A
decoded value that is not a list is discarded and the new entry is appended
to the (possibly reset) sequence. -/
def appendHistoryEntry (content : Option Json) (new_entry : Json) : List Json :=
  let history_list : List Json :=
    match content with
    | some (Json.arr l) => l
    | some _ => []
    | none => []
  history_list ++ [new_entry]

/-! ## Derived measures and concrete inputs -/

/-- The outcome-count content of one aggregate bucket. -/
def ciu (a : ScoreAgg) : ℕ := a.correct + a.incorrect + a.unattempted

/-- `sum(section_scores[*].correct + incorrect + unattempted)`. -/
def ciuSum (l : List (String × ScoreAgg)) : ℕ := (l.map (fun p => ciu p.2)).sum

/-- The spec's scenario section: `name "S1", positive 4, negative -1`. -/
def sectionW : Section :=
  { name := "S1", marksPerQuestion := some 4,
    negagiveMarksPerQuestion := some (-1), negativeMarksPerQuestion := none }

/-- The spec's scenario question: `uuid "q1", correctAnswer "B"`. -/
def questionW : Question :=
  { uuid := "q1", id := none, sectionName := "S1", correctAnswer := "B",
    chapterCode := none, tag2 := none }

/-- The spec's scenario test definition. -/
def pptW : TestDefinition := { sections := [sectionW], questions := [questionW] }

/-- A test definition whose single question references an undeclared
section. -/
def pptU : TestDefinition := { sections := [], questions := [questionW] }

/-- A stored chapter document satisfying `attempted = correct + incorrect`. -/
def chapterDocW : List (String × ChapterAgg) :=
  [("A", { attempted := 3, unattempted := 1, correct := 2, incorrect := 1,
           total_questions := 4 })]

/-- A stored chapter document whose `attempted` has drifted from
correct + incorrect. -/
def chapterDocDrift : List (String × ChapterAgg) :=
  [("A", { attempted := 5, unattempted := 0, correct := 0, incorrect := 0,
           total_questions := 0 })]

/-- A two-chapter document for the frame property. -/
def chapterDocF : List (String × ChapterAgg) :=
  [("A", { attempted := 2, unattempted := 0, correct := 1, incorrect := 1,
           total_questions := 2 }),
   ("B", { attempted := 0, unattempted := 3, correct := 0, incorrect := 0,
           total_questions := 3 })]

/-- A one-chapter delta touching chapter code "A". -/
def chapterDeltaA : List (String × ChapterDelta) :=
  [("A", { correct := 1, incorrect := 0, unattempted := 0, total_questions := 1 })]

/-- A one-chapter delta touching chapter code "B". -/
def chapterDeltaB : List (String × ChapterDelta) :=
  [("B", { correct := 0, incorrect := 1, unattempted := 0, total_questions := 1 })]

/-- A delta with both outcome kinds, for the invariant witness. -/
def chapterDeltaW : List (String × ChapterDelta) :=
  [("A", { correct := 1, incorrect := 1, unattempted := 0, total_questions := 2 })]

/-! ## Basic lemmas about the scoring fold -/

theorem processQuestion_attempt_comparison (cfg : List (String × MarkScheme))
    (rd : ResponseSet) (st : ScoreResult) (q : Question) :
    (processQuestion cfg rd st q).attempt_comparison
      = st.attempt_comparison ++ [comparisonEntry cfg rd q] := rfl

theorem foldl_attempt_comparison (cfg : List (String × MarkScheme)) (rd : ResponseSet)
    (qs : List Question) (st : ScoreResult) :
    (qs.foldl (processQuestion cfg rd) st).attempt_comparison
      = st.attempt_comparison ++ qs.map (comparisonEntry cfg rd) := by
  induction qs generalizing st with
  | nil => simp
  | cons q qs ih =>
      simp [List.foldl_cons, ih, processQuestion_attempt_comparison]

theorem calculateScore_attempt_comparison (ppt : TestDefinition) (rd : ResponseSet) :
    (calculateScore ppt rd).attempt_comparison
      = ppt.questions.map (comparisonEntry (sectionsConfig ppt.sections) rd) := by
  unfold calculateScore
  rw [foldl_attempt_comparison]
  rfl

/-- C1: for every question whose uuid maps to a non-null submitted answer,
the recorded outcome is Correct with the section's positive marks exactly
when the stripped string forms of the submitted and correct answers agree,
and otherwise Incorrect with the section's stored (already-signed) negative
marks added as-is; a question whose section is undeclared uses the default
scheme with positive 0 and negative 0. -/
theorem answered_question_outcome (ppt : TestDefinition) (rd : ResponseSet)
    (i : ℕ) (hi : i < ppt.questions.length) (a : String)
    (ha : responseGet rd (ppt.questions[i]).uuid = some a) :
    ∃ e, (calculateScore ppt rd).attempt_comparison[i]? = some e ∧
      (pyStrip a = pyStrip (ppt.questions[i]).correctAnswer →
        e.status = Status.Correct ∧
        e.marks_awarded = ((dictFind (ppt.questions[i]).sectionName
          (sectionsConfig ppt.sections)).getD { positive := 0, negative := 0 }).positive) ∧
      (pyStrip a ≠ pyStrip (ppt.questions[i]).correctAnswer →
        e.status = Status.Incorrect ∧
        e.marks_awarded = ((dictFind (ppt.questions[i]).sectionName
          (sectionsConfig ppt.sections)).getD { positive := 0, negative := 0 }).negative) := by
  refine ⟨comparisonEntry (sectionsConfig ppt.sections) rd (ppt.questions[i]), ?_, ?_, ?_⟩
  · rw [calculateScore_attempt_comparison]
    simp [List.getElem?_eq_getElem, hi]
  · intro h
    simp [comparisonEntry, questionOutcome, ha, h]
  · intro h
    simp [comparisonEntry, questionOutcome, ha, h]

theorem answered_question_outcome_witness :
    (0 < pptW.questions.length
      ∧ responseGet [("q1", some "B")] (pptW.questions[0]).uuid = some "B")
    ∧ (∃ e, (calculateScore pptW [("q1", some "B")]).attempt_comparison[0]? = some e ∧
        (pyStrip "B" = pyStrip (pptW.questions[0]).correctAnswer →
          e.status = Status.Correct ∧
          e.marks_awarded = ((dictFind (pptW.questions[0]).sectionName
            (sectionsConfig pptW.sections)).getD { positive := 0, negative := 0 }).positive) ∧
        (pyStrip "B" ≠ pyStrip (pptW.questions[0]).correctAnswer →
          e.status = Status.Incorrect ∧
          e.marks_awarded = ((dictFind (pptW.questions[0]).sectionName
            (sectionsConfig pptW.sections)).getD { positive := 0, negative := 0 }).negative)) :=
  ⟨⟨by decide, by decide⟩,
    answered_question_outcome pptW [("q1", some "B")] 0 (by decide) "B" (by decide)⟩

/-- C5 (amended): every question is assigned exactly one of the three
statuses, and the status is Unattempted if and only if the question's uuid
is absent from the ResponseSet mapping or is bound to a null value (Python's
`dict.get` returns `None` in both cases). -/
theorem status_trichotomy (ppt : TestDefinition) (rd : ResponseSet)
    (i : ℕ) (hi : i < ppt.questions.length) :
    ∃ e, (calculateScore ppt rd).attempt_comparison[i]? = some e ∧
      ((if e.status = Status.Correct then 1 else 0)
        + (if e.status = Status.Incorrect then 1 else 0)
        + (if e.status = Status.Unattempted then 1 else 0) = 1) ∧
      (e.status = Status.Unattempted ↔
        (dictFind (ppt.questions[i]).uuid rd = none
          ∨ dictFind (ppt.questions[i]).uuid rd = some none)) := by
  refine ⟨comparisonEntry (sectionsConfig ppt.sections) rd (ppt.questions[i]), ?_, ?_, ?_⟩
  · rw [calculateScore_attempt_comparison]
    simp [List.getElem?_eq_getElem, hi]
  · rcases hs : (comparisonEntry (sectionsConfig ppt.sections) rd (ppt.questions[i])).status
      <;> simp [hs]
  · rcases hf : dictFind (ppt.questions[i]).uuid rd with _ | ov
    · simp [comparisonEntry, questionOutcome, responseGet, hf]
    · rcases ov with _ | a
      · simp [comparisonEntry, questionOutcome, responseGet, hf]
      · simp only [comparisonEntry, questionOutcome, responseGet, hf, Option.join]
        constructor
        · intro h
          by_cases hc : pyStrip a = pyStrip (ppt.questions[i]).correctAnswer <;>
            simp [hc] at h
        · rintro (h | h) <;> simp at h

/-- C5 counterexample: a ResponseSet that binds the uuid "q1" to a null
value still yields status Unattempted although "q1" is present as a key of
the mapping, so "Unattempted iff uuid absent" fails as stated. -/
theorem status_unattempted_iff_absent_cx :
    (∃ e,
      (calculateScore pptW [("q1", (none : Option String))]).attempt_comparison[0]? = some e
        ∧ e.status = Status.Unattempted)
    ∧ dictFind "q1" [("q1", (none : Option String))] ≠ none := by
  refine ⟨⟨comparisonEntry (sectionsConfig pptW.sections) [("q1", none)] questionW, ?_, ?_⟩, ?_⟩
  · decide
  · decide
  · decide

theorem status_trichotomy_witness :
    (0 < pptW.questions.length)
    ∧ (∃ e, (calculateScore pptW []).attempt_comparison[0]? = some e ∧
        ((if e.status = Status.Correct then 1 else 0)
          + (if e.status = Status.Incorrect then 1 else 0)
          + (if e.status = Status.Unattempted then 1 else 0) = 1) ∧
        (e.status = Status.Unattempted ↔
          (dictFind (pptW.questions[0]).uuid ([] : ResponseSet) = none
            ∨ dictFind (pptW.questions[0]).uuid ([] : ResponseSet) = some none))) :=
  ⟨by decide, status_trichotomy pptW [] 0 (by decide)⟩

/-! ## Dictionary lemmas -/

theorem dictKeys_dictUpdate (k : String) (f : β → β) (l : List (String × β)) :
    dictKeys (dictUpdate k f l) = dictKeys l := by
  induction l with
  | nil => rfl
  | cons p rest ih =>
      rcases p with ⟨k1, v⟩
      by_cases h : k = k1
      · simp [dictUpdate, dictKeys, h]
      · simp only [dictUpdate, if_neg h, dictKeys, List.map_cons]
        simpa [dictKeys] using ih

theorem dictFind_dictUpdate (k k2 : String) (f : β → β) (l : List (String × β)) :
    dictFind k2 (dictUpdate k f l)
      = if k2 = k then (dictFind k l).map f else dictFind k2 l := by
  induction l with
  | nil => simp [dictUpdate, dictFind]
  | cons p rest ih =>
      rcases p with ⟨k1, v⟩
      by_cases h1 : k = k1
      · subst h1
        by_cases h2 : k2 = k
        · subst h2
          simp [dictUpdate, dictFind]
        · simp [dictUpdate, dictFind, h2]
      · by_cases h2 : k2 = k1
        · subst h2
          have hne : ¬ k2 = k := fun he => h1 (by rw [← he])
          simp [dictUpdate, dictFind, h1, hne]
        · simp [dictUpdate, dictFind, h1, h2, ih]

theorem dictFind_eq_none_iff (k : String) (l : List (String × β)) :
    dictFind k l = none ↔ k ∉ dictKeys l := by
  induction l with
  | nil => simp [dictFind, dictKeys]
  | cons p rest ih =>
      by_cases h : k = p.1 <;> simp [dictFind, dictKeys, h, ih]

theorem dictFind_isSome_iff (k : String) (l : List (String × β)) :
    (dictFind k l).isSome ↔ k ∈ dictKeys l := by
  rw [Option.isSome_iff_ne_none, Ne, dictFind_eq_none_iff]
  simp

theorem dictFind_append (k : String) (l m : List (String × β)) :
    dictFind k (l ++ m)
      = if (dictFind k l).isSome then dictFind k l else dictFind k m := by
  induction l with
  | nil => simp [dictFind]
  | cons p rest ih =>
      by_cases h : k = p.1 <;> simp [dictFind, h, ih]

theorem dictKeys_map_snd (g : β → γ) (l : List (String × β)) :
    dictKeys (l.map (fun p => (p.1, g p.2))) = dictKeys l := by
  simp [dictKeys]

theorem mem_of_dictFind_eq_some {k : String} {v : β} {l : List (String × β)}
    (h : dictFind k l = some v) : (k, v) ∈ l := by
  induction l with
  | nil => simp [dictFind] at h
  | cons p rest ih =>
      by_cases hk : k = p.1
      · simp [dictFind, hk] at h
        subst hk
        simp [← h]
      · simp [dictFind, hk] at h
        exact List.mem_cons_of_mem _ (ih h)

theorem dictFind_eq_some_of_mem {k : String} {v : β} {l : List (String × β)}
    (hnd : (dictKeys l).Nodup) (hm : (k, v) ∈ l) : dictFind k l = some v := by
  induction l with
  | nil => simp at hm
  | cons p rest ih =>
      rcases p with ⟨k1, v1⟩
      simp [dictKeys] at hnd
      rcases List.mem_cons.mp hm with h | h
      · cases h
        simp [dictFind]
      · have hk : ¬ k = k1 := by
          intro he
          subst he
          exact hnd.1 v h
        simp only [dictFind, if_neg hk]
        exact ih hnd.2 h

/-! ## Section-count bookkeeping (C2) -/

theorem ciu_bumpCounts (s : Status) (a : ScoreAgg) : ciu (bumpCounts s a) = ciu a + 1 := by
  cases s <;> simp [bumpCounts, ciu] <;> omega

theorem ciuSum_dictUpdate (k : String) (f : ScoreAgg → ScoreAgg) (d : ℕ)
    (l : List (String × ScoreAgg)) (hf : ∀ a, ciu (f a) = ciu a + d)
    (h : (dictFind k l).isSome) :
    ciuSum (dictUpdate k f l) = ciuSum l + d := by
  induction l with
  | nil => simp [dictFind] at h
  | cons p rest ih =>
      rcases p with ⟨k1, v⟩
      by_cases hk : k = k1
      · simp [dictUpdate, hk, ciuSum, hf]
        omega
      · simp only [dictFind, if_neg hk] at h
        simp only [dictUpdate, if_neg hk, ciuSum, List.map_cons, List.sum_cons]
        have := ih h
        simp only [ciuSum] at this
        omega

theorem processQuestion_section_scores (cfg : List (String × MarkScheme)) (rd : ResponseSet)
    (st : ScoreResult) (q : Question) :
    (processQuestion cfg rd st q).section_scores
      = if (dictFind q.sectionName st.section_scores).isSome then
          dictUpdate q.sectionName
            (fun a =>
              bumpCounts
                (questionOutcome ((dictFind q.sectionName cfg).getD { positive := 0, negative := 0 })
                  (responseGet rd q.uuid) q.correctAnswer).1
                { a with score := a.score +
                    (questionOutcome ((dictFind q.sectionName cfg).getD { positive := 0, negative := 0 })
                      (responseGet rd q.uuid) q.correctAnswer).2 })
            (dictUpdate q.sectionName
              (fun a => { a with total_questions := a.total_questions + 1 }) st.section_scores)
        else st.section_scores := by
  unfold processQuestion
  by_cases h : (dictFind q.sectionName st.section_scores).isSome
  · have h2 : (dictFind q.sectionName
        (dictUpdate q.sectionName
          (fun a => { a with total_questions := a.total_questions + 1 })
          st.section_scores)).isSome := by
      rw [dictFind_dictUpdate]
      simpa using h
    simp [h, h2]
  · simp [h]

theorem processQuestion_section_keys (cfg : List (String × MarkScheme)) (rd : ResponseSet)
    (st : ScoreResult) (q : Question) :
    dictKeys (processQuestion cfg rd st q).section_scores = dictKeys st.section_scores := by
  rw [processQuestion_section_scores]
  by_cases h : (dictFind q.sectionName st.section_scores).isSome <;>
    simp [h, dictKeys_dictUpdate]

theorem processQuestion_ciuSum (cfg : List (String × MarkScheme)) (rd : ResponseSet)
    (st : ScoreResult) (q : Question)
    (h : (dictFind q.sectionName st.section_scores).isSome) :
    ciuSum (processQuestion cfg rd st q).section_scores = ciuSum st.section_scores + 1 := by
  rw [processQuestion_section_scores, if_pos h]
  set sm := questionOutcome ((dictFind q.sectionName cfg).getD { positive := 0, negative := 0 })
    (responseGet rd q.uuid) q.correctAnswer with hsm
  set f1 : ScoreAgg → ScoreAgg :=
    fun a => { a with total_questions := a.total_questions + 1 } with hf1
  set f2 : ScoreAgg → ScoreAgg :=
    fun a => bumpCounts sm.1 { a with score := a.score + sm.2 } with hf2
  have h2 : (dictFind q.sectionName (dictUpdate q.sectionName f1 st.section_scores)).isSome := by
    rw [dictFind_dictUpdate]
    simpa using h
  have e2 : ciuSum (dictUpdate q.sectionName f2 (dictUpdate q.sectionName f1 st.section_scores))
      = ciuSum (dictUpdate q.sectionName f1 st.section_scores) + 1 :=
    ciuSum_dictUpdate q.sectionName f2 1 _ (fun a => ciu_bumpCounts _ _) h2
  have e1 : ciuSum (dictUpdate q.sectionName f1 st.section_scores)
      = ciuSum st.section_scores + 0 :=
    ciuSum_dictUpdate q.sectionName f1 0 _ (fun a => rfl) h
  rw [e2, e1]

theorem processQuestion_total_questions (cfg : List (String × MarkScheme)) (rd : ResponseSet)
    (st : ScoreResult) (q : Question) :
    (processQuestion cfg rd st q).total_questions_count = st.total_questions_count + 1 := rfl

theorem foldl_total_questions (cfg : List (String × MarkScheme)) (rd : ResponseSet)
    (qs : List Question) (st : ScoreResult) :
    (qs.foldl (processQuestion cfg rd) st).total_questions_count
      = st.total_questions_count + qs.length := by
  induction qs generalizing st with
  | nil => simp
  | cons q qs ih =>
      rw [List.foldl_cons, ih, processQuestion_total_questions]
      simp only [List.length_cons]
      omega

theorem foldl_section_stats (cfg : List (String × MarkScheme)) (rd : ResponseSet)
    (qs : List Question) (st : ScoreResult)
    (h : ∀ q ∈ qs, q.sectionName ∈ dictKeys st.section_scores) :
    dictKeys ((qs.foldl (processQuestion cfg rd) st).section_scores)
        = dictKeys st.section_scores
      ∧ ciuSum ((qs.foldl (processQuestion cfg rd) st).section_scores)
        = ciuSum st.section_scores + qs.length := by
  induction qs generalizing st with
  | nil => simp
  | cons q qs ih =>
      have hq : q.sectionName ∈ dictKeys st.section_scores := h q (List.mem_cons_self q qs)
      have hsome : (dictFind q.sectionName st.section_scores).isSome :=
        (dictFind_isSome_iff _ _).mpr hq
      have hk := processQuestion_section_keys cfg rd st q
      obtain ⟨k1, s1⟩ := ih (processQuestion cfg rd st q)
        (fun q2 hq2 => by rw [hk]; exact h q2 (List.mem_cons_of_mem q hq2))
      refine ⟨by rw [List.foldl_cons, k1, hk], ?_⟩
      rw [List.foldl_cons, s1, processQuestion_ciuSum cfg rd st q hsome]
      simp
      omega

theorem ciuSum_zero_init (l : List (String × MarkScheme)) :
    ciuSum (l.map (fun p => (p.1, zeroAgg))) = 0 := by
  induction l with
  | nil => rfl
  | cons p rest ih => simpa [ciuSum, ciu, zeroAgg] using ih

/-- C2 (amended): for every test definition and response set,
`total_questions` equals the number of questions in the question list,
unconditionally; and whenever every question's section name is declared in
the test definition's section list, the sum over all section aggregate
buckets of correct + incorrect + unattempted also equals `total_questions`.
A question referencing an undeclared section is skipped by the section
aggregation, so the bucket-sum equality needs the declaredness
hypothesis. -/
theorem section_counts_partition (ppt : TestDefinition) (rd : ResponseSet) :
    (calculateScore ppt rd).total_questions_count = ppt.questions.length
      ∧ ((∀ q ∈ ppt.questions, q.sectionName ∈ dictKeys (sectionsConfig ppt.sections)) →
          ciuSum (calculateScore ppt rd).section_scores
            = (calculateScore ppt rd).total_questions_count) := by
  unfold calculateScore
  have ht := foldl_total_questions (sectionsConfig ppt.sections) rd ppt.questions
    { attempt_comparison := []
      section_scores := (sectionsConfig ppt.sections).map (fun p => (p.1, zeroAgg))
      chapter_scores := []
      total_score := 0
      total_correct := 0
      total_incorrect := 0
      total_unattempted := 0
      total_questions_count := 0 }
  constructor
  · rw [ht]
    simp
  · intro h
    have hkeys : dictKeys ((sectionsConfig ppt.sections).map (fun p => (p.1, zeroAgg)))
        = dictKeys (sectionsConfig ppt.sections) :=
      dictKeys_map_snd (fun _ => zeroAgg) (sectionsConfig ppt.sections)
    obtain ⟨_, hs⟩ := foldl_section_stats (sectionsConfig ppt.sections) rd ppt.questions
      { attempt_comparison := []
        section_scores := (sectionsConfig ppt.sections).map (fun p => (p.1, zeroAgg))
        chapter_scores := []
        total_score := 0
        total_correct := 0
        total_incorrect := 0
        total_unattempted := 0
        total_questions_count := 0 }
      (fun q hq => by rw [hkeys]; exact h q hq)
    rw [hs, ht, ciuSum_zero_init]

/-- C2 counterexample: a test definition whose single question references an
undeclared section yields an empty `section_scores` (outcome sum 0) while
`total_questions` is 1, so the claimed equality fails without the
declaredness assumption. -/
theorem section_counts_partition_cx :
    ¬ ciuSum (calculateScore pptU []).section_scores
        = (calculateScore pptU []).total_questions_count := by
  decide

theorem section_counts_partition_witness :
    (∀ q ∈ pptW.questions, q.sectionName ∈ dictKeys (sectionsConfig pptW.sections))
    ∧ (calculateScore pptW [("q1", some "B")]).total_questions_count
        = pptW.questions.length
    ∧ ciuSum (calculateScore pptW [("q1", some "B")]).section_scores
        = (calculateScore pptW [("q1", some "B")]).total_questions_count :=
  ⟨by decide,
    (section_counts_partition pptW [("q1", some "B")]).1,
    (section_counts_partition pptW [("q1", some "B")]).2 (by decide)⟩

/-- C10: the negative marking value comes from the misspelled key
`negagiveMarksPerQuestion` whenever that key carries a truthy (non-zero,
non-null) value; the correctly spelled key `negativeMarksPerQuestion` is
consulted only when the misspelled key is absent/null or its value is 0, so
a section supplying both keys with non-zero values gets the misspelled
key's value. -/
theorem negative_marks_key_preference (s : Section) (v : ℚ) :
    (s.negagiveMarksPerQuestion = some v → v ≠ 0 → sectionNegativeMarks s = v)
    ∧ ((s.negagiveMarksPerQuestion = none ∨ s.negagiveMarksPerQuestion = some 0) →
        sectionNegativeMarks s = s.negativeMarksPerQuestion.getD 0) := by
  constructor
  · intro hv hv0
    simp [sectionNegativeMarks, hv, hv0]
  · rintro (hv | hv) <;> simp [sectionNegativeMarks, hv]

theorem negative_marks_key_preference_witness :
    ((sectionW.negagiveMarksPerQuestion = some (-1)) ∧ ((-1 : ℚ) ≠ 0))
    ∧ sectionNegativeMarks sectionW = -1 :=
  ⟨⟨by decide, by decide⟩,
    (negative_marks_key_preference sectionW (-1)).1 (by decide) (by decide)⟩

/-- C7: when the stored history content decodes to a non-sequence value,
the merge discards it and produces the fresh one-element log consisting of
exactly the new entry, rather than failing. -/
theorem malformed_history_reset (content : Json) (new_entry : Json)
    (h : content.isArr = false) :
    appendHistoryEntry (some content) new_entry = [new_entry] := by
  cases content <;> simp_all [Json.isArr, appendHistoryEntry]

theorem malformed_history_reset_witness :
    ((Json.obj []).isArr = false)
    ∧ appendHistoryEntry (some (Json.obj [])) (Json.num 7) = [Json.num 7] :=
  ⟨rfl, malformed_history_reset (Json.obj []) (Json.num 7) rfl⟩

/-- C4 (amended): `estimatePercentile` returns 0 when the reference score is
non-positive and otherwise `100 * (1 - term^1.87)` with the min-clamped
term; the resulting value lies in [0,100] whenever the total score is
non-negative.  (For a negative total score the term exceeds 1 and the result
can drop below 0, see the counterexample.) -/
theorem estimatePercentile_spec (t m : ℝ) (ht : 0 ≤ t) :
    (m ≤ 0 → estimatePercentile t m = 0)
    ∧ (0 < m → estimatePercentile t m
        = 100 * (1 - ((m - min t m) / m) ^ (1.87 : ℝ)))
    ∧ 0 ≤ estimatePercentile t m ∧ estimatePercentile t m ≤ 100 := by
  have hbounds : 0 < m →
      0 ≤ ((m - min t m) / m) ^ (1.87 : ℝ) ∧ ((m - min t m) / m) ^ (1.87 : ℝ) ≤ 1 := by
    intro hm
    have hmin : 0 ≤ min t m := le_min ht hm.le
    have h0 : 0 ≤ (m - min t m) / m :=
      div_nonneg (sub_nonneg.mpr (min_le_right t m)) hm.le
    have h1 : (m - min t m) / m ≤ 1 := by
      rw [div_le_one hm]
      linarith
    exact ⟨Real.rpow_nonneg h0 _, Real.rpow_le_one h0 h1 (by norm_num)⟩
  refine ⟨?_, ?_, ?_, ?_⟩
  · intro hm
    rw [estimatePercentile, if_neg (not_lt.mpr hm)]
  · intro hm
    rw [estimatePercentile, if_pos hm]
  · by_cases hm : 0 < m
    · obtain ⟨hx0, hx1⟩ := hbounds hm
      rw [estimatePercentile, if_pos hm]
      show 0 ≤ 100 * (1 - ((m - min t m) / m) ^ (1.87 : ℝ))
      linarith
    · rw [estimatePercentile, if_neg hm]
  · by_cases hm : 0 < m
    · obtain ⟨hx0, hx1⟩ := hbounds hm
      rw [estimatePercentile, if_pos hm]
      show 100 * (1 - ((m - min t m) / m) ^ (1.87 : ℝ)) ≤ 100
      linarith
    · rw [estimatePercentile, if_neg hm]
      norm_num

/-- C4 counterexample: with a negative total score the clamped term
`(m99 - totalScore)/m99` exceeds 1, its 1.87-power exceeds 1, and the
computed percentile is negative, so the unconditional range contract
[0,100] fails. -/
theorem estimatePercentile_negative_cx : estimatePercentile (-100) 100 < 0 := by
  have h : estimatePercentile (-100) 100
      = 100 * (1 - ((100 - min (-100 : ℝ) 100) / 100) ^ (1.87 : ℝ)) := by
    rw [estimatePercentile, if_pos (by norm_num)]
  have hmin : min (-100 : ℝ) 100 = -100 := by norm_num
  have hterm : ((100 : ℝ) - min (-100 : ℝ) 100) / 100 = 2 := by
    rw [hmin]
    norm_num
  have h2 : (1 : ℝ) < 2 ^ (1.87 : ℝ) :=
    (Real.one_lt_rpow_iff_of_pos (by norm_num)).mpr (Or.inl ⟨by norm_num, by norm_num⟩)
  rw [h, hterm]
  nlinarith

theorem estimatePercentile_spec_witness :
    (0 ≤ (0 : ℝ))
    ∧ (((1 : ℝ) ≤ 0 → estimatePercentile 0 1 = 0)
      ∧ ((0 : ℝ) < 1 → estimatePercentile 0 1
          = 100 * (1 - ((1 - min (0 : ℝ) 1) / 1) ^ (1.87 : ℝ)))
      ∧ 0 ≤ estimatePercentile 0 1 ∧ estimatePercentile 0 1 ≤ 100) :=
  ⟨le_refl 0, estimatePercentile_spec 0 1 (le_refl 0)⟩

theorem subjectLoop_ge_six (ss : List (String × ScoreAgg)) (names : List String)
    (i : ℕ) (hi : 6 ≤ i) (phy chem math : ℚ) :
    subjectLoop ss names i phy chem math = (phy, chem, math) := by
  induction names generalizing i with
  | nil => rfl
  | cons n rest ih =>
      have h2 : ¬ i < 2 := by omega
      have h4 : ¬ i < 4 := by omega
      have h6 : ¬ i < 6 := by omega
      simp only [subjectLoop, if_neg h2, if_neg h4, if_neg h6]
      exact ih (i + 1) (by omega)

/-- C8: the subject-wise scores are obtained by positional grouping over the
ordered section-name list: subject A (physics) sums the looked-up scores of
the names at indices 0–1, subject B (chemistry) indices 2–3, subject C
(mathematics) indices 4–5, and names at index 6 or beyond contribute to no
subject. -/
theorem subject_positional_grouping (names : List String)
    (ss : List (String × ScoreAgg)) :
    subjectScores names ss
      = (((names.take 2).map (sectionScoreOf ss)).sum,
         (((names.drop 2).take 2).map (sectionScoreOf ss)).sum,
         (((names.drop 4).take 2).map (sectionScoreOf ss)).sum) := by
  match names with
  | [] => simp [subjectScores, subjectLoop]
  | [a] => simp [subjectScores, subjectLoop]
  | [a, b] => simp [subjectScores, subjectLoop]
  | [a, b, c] => simp [subjectScores, subjectLoop]
  | [a, b, c, d] => simp [subjectScores, subjectLoop]
  | [a, b, c, d, e] => simp [subjectScores, subjectLoop]
  | a :: b :: c :: d :: e :: f :: rest =>
      have h6 := subjectLoop_ge_six ss rest 6 (le_refl 6)
      simp [subjectScores, subjectLoop, h6]

/-! ## Chapter-stats merge lemmas -/

theorem chapterStep_dictFind (l : List (String × ChapterAgg)) (c1 : String)
    (dd : ChapterDelta) (c : String) :
    dictFind c (chapterStep l (c1, dd))
      = if c = c1 then some (applyDelta dd ((dictFind c1 l).getD zeroChapterAgg))
        else dictFind c l := by
  unfold chapterStep
  by_cases h : (dictFind c1 l).isSome
  · simp only [h, if_true]
    rw [dictFind_dictUpdate]
    by_cases hc : c = c1
    · subst hc
      obtain ⟨v, hv⟩ := Option.isSome_iff_exists.mp h
      simp [hv]
    · simp [hc]
  · have hnone : dictFind c1 l = none := Option.not_isSome_iff_eq_none.mp h
    simp only [h, Bool.false_eq_true, if_false]
    rw [dictFind_dictUpdate]
    by_cases hc : c = c1
    · subst hc
      rw [dictFind_append]
      simp [hnone, dictFind]
    · rw [dictFind_append]
      cases hfc : dictFind c l <;> simp [dictFind_append, hfc, dictFind, hc]

theorem dictKeys_chapterStep_nodup (l : List (String × ChapterAgg))
    (cd : String × ChapterDelta) (h : (dictKeys l).Nodup) :
    (dictKeys (chapterStep l cd)).Nodup := by
  unfold chapterStep
  by_cases hf : (dictFind cd.1 l).isSome
  · simpa [hf, dictKeys_dictUpdate] using h
  · have hnone : dictFind cd.1 l = none := Option.not_isSome_iff_eq_none.mp hf
    have hnotm : cd.1 ∉ dictKeys l := (dictFind_eq_none_iff _ _).mp hnone
    simp only [hf, Bool.false_eq_true, if_false, dictKeys_dictUpdate]
    simp only [dictKeys, List.map_append, List.map_cons, List.map_nil] at *
    rw [List.nodup_append]
    exact ⟨h, List.nodup_singleton _, by simpa using hnotm⟩

theorem foldl_chapterStep_nodup (deltas : List (String × ChapterDelta))
    (l : List (String × ChapterAgg)) (h : (dictKeys l).Nodup) :
    (dictKeys (deltas.foldl chapterStep l)).Nodup := by
  induction deltas generalizing l with
  | nil => exact h
  | cons p rest ih =>
      rw [List.foldl_cons]
      exact ih _ (dictKeys_chapterStep_nodup l p h)

theorem foldl_chapterStep_dictFind_none (deltas : List (String × ChapterDelta))
    (l : List (String × ChapterAgg)) (c : String)
    (h : dictFind c deltas = none) :
    dictFind c (deltas.foldl chapterStep l) = dictFind c l := by
  induction deltas generalizing l with
  | nil => rfl
  | cons p rest ih =>
      rcases p with ⟨c1, dd1⟩
      have hc : ¬ c = c1 := by
        intro he
        simp [dictFind, he] at h
      simp only [dictFind, if_neg hc] at h
      rw [List.foldl_cons, ih _ h, chapterStep_dictFind, if_neg hc]

theorem foldl_chapterStep_dictFind_some (deltas : List (String × ChapterDelta))
    (l : List (String × ChapterAgg)) (c : String) (dd : ChapterDelta)
    (hnd : (dictKeys deltas).Nodup) (h : dictFind c deltas = some dd) :
    dictFind c (deltas.foldl chapterStep l)
      = some (applyDelta dd ((dictFind c l).getD zeroChapterAgg)) := by
  induction deltas generalizing l with
  | nil => simp [dictFind] at h
  | cons p rest ih =>
      rcases p with ⟨c1, dd1⟩
      simp only [dictKeys, List.map_cons, List.nodup_cons] at hnd
      by_cases hc : c = c1
      · subst hc
        simp [dictFind] at h
        subst h
        have hrest : dictFind c rest = none := by
          rw [dictFind_eq_none_iff]
          intro hmem
          exact hnd.1 (by simpa [dictKeys] using hmem)
        rw [List.foldl_cons, foldl_chapterStep_dictFind_none rest _ c hrest,
          chapterStep_dictFind, if_pos rfl]
      · simp only [dictFind, if_neg hc] at h
        rw [List.foldl_cons, ih _ hnd.2 h, chapterStep_dictFind, if_neg hc]

theorem dictFind_of_perm {l l2 : List (String × β)} (hp : l.Perm l2)
    (hnd : (dictKeys l).Nodup) (c : String) :
    dictFind c l = dictFind c l2 := by
  have hkp : (dictKeys l).Perm (dictKeys l2) := by
    simpa [dictKeys] using hp.map (fun p => p.1)
  have hnd2 : (dictKeys l2).Nodup := hkp.nodup_iff.mp hnd
  cases hfc : dictFind c l with
  | none =>
      have hm : c ∉ dictKeys l := (dictFind_eq_none_iff _ _).mp hfc
      have hm2 : c ∉ dictKeys l2 := fun h => hm (hkp.mem_iff.mpr h)
      exact ((dictFind_eq_none_iff _ _).mpr hm2).symm
  | some v =>
      have hm := mem_of_dictFind_eq_some hfc
      exact (dictFind_eq_some_of_mem hnd2 (hp.mem_iff.mp hm)).symm

theorem mergeChapterStats_keys_nodup (doc : List (String × ChapterAgg))
    (deltas : List (String × ChapterDelta)) (hdoc : (dictKeys doc).Nodup) :
    (dictKeys (mergeChapterStats doc deltas)).Nodup := by
  unfold mergeChapterStats
  have hfold := foldl_chapterStep_nodup deltas doc hdoc
  have hp : ((deltas.foldl chapterStep doc).Perm
      (List.insertionSort byAttempted (deltas.foldl chapterStep doc))) :=
    (List.perm_insertionSort byAttempted _).symm
  have hkp : (dictKeys (deltas.foldl chapterStep doc)).Perm
      (dictKeys (List.insertionSort byAttempted (deltas.foldl chapterStep doc))) := by
    simpa [dictKeys] using hp.map (fun p => p.1)
  exact hkp.nodup_iff.mp hfold

theorem mergeChapterStats_dictFind (doc : List (String × ChapterAgg))
    (deltas : List (String × ChapterDelta)) (c : String)
    (hdoc : (dictKeys doc).Nodup) :
    dictFind c (mergeChapterStats doc deltas)
      = dictFind c (deltas.foldl chapterStep doc) :=
  (dictFind_of_perm (List.perm_insertionSort byAttempted _).symm
    (foldl_chapterStep_nodup deltas doc hdoc) c).symm

theorem mergeChapterStats_dictFind_some (doc : List (String × ChapterAgg))
    (deltas : List (String × ChapterDelta)) (c : String) (dd : ChapterDelta)
    (hdoc : (dictKeys doc).Nodup) (hd : (dictKeys deltas).Nodup)
    (h : dictFind c deltas = some dd) :
    dictFind c (mergeChapterStats doc deltas)
      = some (applyDelta dd ((dictFind c doc).getD zeroChapterAgg)) := by
  rw [mergeChapterStats_dictFind doc deltas c hdoc]
  exact foldl_chapterStep_dictFind_some deltas doc c dd hd h

theorem mergeChapterStats_dictFind_none (doc : List (String × ChapterAgg))
    (deltas : List (String × ChapterDelta)) (c : String)
    (hdoc : (dictKeys doc).Nodup) (h : dictFind c deltas = none) :
    dictFind c (mergeChapterStats doc deltas) = dictFind c doc := by
  rw [mergeChapterStats_dictFind doc deltas c hdoc]
  exact foldl_chapterStep_dictFind_none deltas doc c h

theorem mem_dictUpdate {p : String × β} (k : String) (f : β → β)
    (l : List (String × β)) (hp : p ∈ dictUpdate k f l) :
    p ∈ l ∨ ∃ v, (k, v) ∈ l ∧ p = (k, f v) := by
  induction l with
  | nil => simp [dictUpdate] at hp
  | cons q rest ih =>
      rcases q with ⟨k1, v1⟩
      by_cases h : k = k1
      · subst h
        simp only [dictUpdate, if_pos rfl] at hp
        rcases List.mem_cons.mp hp with h1 | h1
        · exact Or.inr ⟨v1, List.mem_cons_self _ _, h1⟩
        · exact Or.inl (List.mem_cons_of_mem _ h1)
      · simp only [dictUpdate, if_neg h] at hp
        rcases List.mem_cons.mp hp with h1 | h1
        · exact Or.inl (by simp [h1])
        · rcases ih h1 with h2 | ⟨v, hv, he⟩
          · exact Or.inl (List.mem_cons_of_mem _ h2)
          · exact Or.inr ⟨v, List.mem_cons_of_mem _ hv, he⟩

theorem applyDelta_attempted (dd : ChapterDelta) (e : ChapterAgg)
    (h : e.attempted = e.correct + e.incorrect) :
    (applyDelta dd e).attempted
      = (applyDelta dd e).correct + (applyDelta dd e).incorrect := by
  simp only [applyDelta]
  omega

theorem chapterStep_attempted_invariant (l : List (String × ChapterAgg))
    (cd : String × ChapterDelta)
    (h : ∀ p ∈ l, p.2.attempted = p.2.correct + p.2.incorrect) :
    ∀ p ∈ chapterStep l cd, p.2.attempted = p.2.correct + p.2.incorrect := by
  intro p hp
  unfold chapterStep at hp
  by_cases hf : (dictFind cd.1 l).isSome
  · simp only [hf, if_true] at hp
    rcases mem_dictUpdate _ _ _ hp with h1 | ⟨v, hv, he⟩
    · exact h p h1
    · subst he
      exact applyDelta_attempted _ _ (h (cd.1, v) hv)
  · simp only [hf, Bool.false_eq_true, if_false] at hp
    rcases mem_dictUpdate _ _ _ hp with h1 | ⟨v, hv, he⟩
    · rcases List.mem_append.mp h1 with h2 | h2
      · exact h p h2
      · simp only [List.mem_singleton] at h2
        subst h2
        rfl
    · rcases List.mem_append.mp hv with h2 | h2
      · subst he
        exact applyDelta_attempted _ _ (h (cd.1, v) h2)
      · simp only [List.mem_singleton, Prod.mk.injEq] at h2
        subst he
        rw [h2.2]
        exact applyDelta_attempted _ _ (by decide)

/-- C3 (amended): the merge accumulates `attempted` by adding the delta's
correct + incorrect to the stored value (it does not recompute it from the
merged totals), so `attempted = correct + incorrect` holds for every chapter
of the merged document provided it already holds for every chapter of the
pre-existing document (fresh chapters start from the zero record, which
satisfies it). -/
theorem chapter_attempted_invariant (doc : List (String × ChapterAgg))
    (deltas : List (String × ChapterDelta))
    (h : ∀ p ∈ doc, p.2.attempted = p.2.correct + p.2.incorrect) :
    ∀ p ∈ mergeChapterStats doc deltas,
      p.2.attempted = p.2.correct + p.2.incorrect := by
  have hfold : ∀ (dl : List (String × ChapterDelta)) (l : List (String × ChapterAgg)),
      (∀ p ∈ l, p.2.attempted = p.2.correct + p.2.incorrect) →
      ∀ p ∈ dl.foldl chapterStep l, p.2.attempted = p.2.correct + p.2.incorrect := by
    intro dl
    induction dl with
    | nil => exact fun l hl => hl
    | cons q rest ih =>
        intro l hl
        rw [List.foldl_cons]
        exact ih _ (chapterStep_attempted_invariant l q hl)
  intro p hp
  exact hfold deltas doc h p ((List.perm_insertionSort byAttempted _).mem_iff.mp hp)

/-- C3 counterexample: a pre-existing document whose stored `attempted`
(5) already disagrees with correct + incorrect (0) keeps the drift after a
merge (attempted becomes 6 while correct + incorrect becomes 1), because the
code adds the delta's correct + incorrect instead of recomputing. -/
theorem chapter_attempted_drift_cx :
    ¬ (∀ p ∈ mergeChapterStats chapterDocDrift chapterDeltaA,
        p.2.attempted = p.2.correct + p.2.incorrect) := by
  decide

theorem chapter_attempted_invariant_witness :
    (∀ p ∈ chapterDocW, p.2.attempted = p.2.correct + p.2.incorrect)
    ∧ (∀ p ∈ mergeChapterStats chapterDocW chapterDeltaW,
        p.2.attempted = p.2.correct + p.2.incorrect) :=
  ⟨by decide, chapter_attempted_invariant chapterDocW chapterDeltaW (by decide)⟩

/-- C9: a chapter code present in the existing document but absent from the
delta mapping keeps its entire record (all five count fields) unchanged in
the merged output; the merge only re-sorts it. -/
theorem untouched_chapter_frame (doc : List (String × ChapterAgg))
    (deltas : List (String × ChapterDelta)) (c : String) (e : ChapterAgg)
    (hdoc : (dictKeys doc).Nodup) (hc : dictFind c doc = some e)
    (habs : c ∉ dictKeys deltas) :
    dictFind c (mergeChapterStats doc deltas) = some e := by
  rw [mergeChapterStats_dictFind_none doc deltas c hdoc
    ((dictFind_eq_none_iff _ _).mpr habs)]
  exact hc

theorem untouched_chapter_frame_witness :
    ((dictKeys chapterDocF).Nodup
      ∧ dictFind "A" chapterDocF
          = some { attempted := 2, unattempted := 0, correct := 1, incorrect := 1,
                   total_questions := 2 }
      ∧ "A" ∉ dictKeys chapterDeltaB)
    ∧ dictFind "A" (mergeChapterStats chapterDocF chapterDeltaB)
        = some { attempted := 2, unattempted := 0, correct := 1, incorrect := 1,
                 total_questions := 2 } :=
  ⟨⟨by decide, by decide, by decide⟩,
    untouched_chapter_frame chapterDocF chapterDeltaB "A"
      { attempted := 2, unattempted := 0, correct := 1, incorrect := 1,
        total_questions := 2 }
      (by decide) (by decide) (by decide)⟩

/-- C6: merging two deltas with disjoint chapter-code sets in either order
yields the same final document up to the ordering of the chapter mapping
(the two results agree on every lookup), and in both orders the resulting
mapping is sorted ascending by the `attempted` count. -/
theorem chapter_merge_commutes (doc : List (String × ChapterAgg))
    (d1 d2 : List (String × ChapterDelta))
    (hdoc : (dictKeys doc).Nodup) (h1 : (dictKeys d1).Nodup)
    (h2 : (dictKeys d2).Nodup)
    (hdisj : ∀ c ∈ dictKeys d1, c ∉ dictKeys d2) :
    (∀ c, dictFind c (mergeChapterStats (mergeChapterStats doc d1) d2)
        = dictFind c (mergeChapterStats (mergeChapterStats doc d2) d1))
    ∧ List.Sorted byAttempted (mergeChapterStats (mergeChapterStats doc d1) d2)
    ∧ List.Sorted byAttempted (mergeChapterStats (mergeChapterStats doc d2) d1) := by
  have hn1 : (dictKeys (mergeChapterStats doc d1)).Nodup :=
    mergeChapterStats_keys_nodup doc d1 hdoc
  have hn2 : (dictKeys (mergeChapterStats doc d2)).Nodup :=
    mergeChapterStats_keys_nodup doc d2 hdoc
  refine ⟨?_, List.sorted_insertionSort byAttempted _,
    List.sorted_insertionSort byAttempted _⟩
  intro c
  cases hf1 : dictFind c d1 with
  | some dd1 =>
      have hc1 : c ∈ dictKeys d1 :=
        (dictFind_isSome_iff c d1).mp (by simp [hf1])
      have hf2 : dictFind c d2 = none :=
        (dictFind_eq_none_iff _ _).mpr (hdisj c hc1)
      rw [mergeChapterStats_dictFind_none _ d2 c hn1 hf2,
        mergeChapterStats_dictFind_some doc d1 c dd1 hdoc h1 hf1,
        mergeChapterStats_dictFind_some _ d1 c dd1 hn2 h1 hf1,
        mergeChapterStats_dictFind_none doc d2 c hdoc hf2]
  | none =>
      cases hf2 : dictFind c d2 with
      | some dd2 =>
          rw [mergeChapterStats_dictFind_some _ d2 c dd2 hn1 h2 hf2,
            mergeChapterStats_dictFind_none doc d1 c hdoc hf1,
            mergeChapterStats_dictFind_none _ d1 c hn2 hf1,
            mergeChapterStats_dictFind_some doc d2 c dd2 hdoc h2 hf2]
      | none =>
          rw [mergeChapterStats_dictFind_none _ d2 c hn1 hf2,
            mergeChapterStats_dictFind_none doc d1 c hdoc hf1,
            mergeChapterStats_dictFind_none _ d1 c hn2 hf1,
            mergeChapterStats_dictFind_none doc d2 c hdoc hf2]

theorem chapter_merge_commutes_witness :
    ((dictKeys chapterDocW).Nodup
      ∧ (dictKeys chapterDeltaA).Nodup
      ∧ (dictKeys chapterDeltaB).Nodup
      ∧ (∀ c ∈ dictKeys chapterDeltaA, c ∉ dictKeys chapterDeltaB))
    ∧ ((∀ c, dictFind c (mergeChapterStats (mergeChapterStats chapterDocW chapterDeltaA)
            chapterDeltaB)
        = dictFind c (mergeChapterStats (mergeChapterStats chapterDocW chapterDeltaB)
            chapterDeltaA))
      ∧ List.Sorted byAttempted
          (mergeChapterStats (mergeChapterStats chapterDocW chapterDeltaA) chapterDeltaB)
      ∧ List.Sorted byAttempted
          (mergeChapterStats (mergeChapterStats chapterDocW chapterDeltaB) chapterDeltaA)) :=
  ⟨⟨by decide, by decide, by decide, by decide⟩,
    chapter_merge_commutes chapterDocW chapterDeltaA chapterDeltaB
      (by decide) (by decide) (by decide) (by decide)⟩
